import Mathlib

/-!
Shallow embedding of `src/notification_tracker.py` (class `NotificationTracker`):
a Redis-backed TTL store that records which `(course, slot_datetime)` pairs have
already triggered a notification.

Modelling choices:
* `DateTime` mirrors a Python `datetime.datetime` value: calendar fields plus an
  optional fixed UTC offset in whole minutes (`none` models a naive datetime).
* The Redis server is a list of entries, each with its key, string value and an
  absolute expiry instant (Redis clock, integer seconds); `recordedAt` is ghost
  data remembering when the entry was written, used only to state claims about
  entry age.  A key is visible (to `EXISTS`/`KEYS`/`GET`) while `now < expiresAt`.
* Backend availability is an explicit boolean; an unavailable backend makes every
  Redis command fail with `connectionError` (Python: `redis.ConnectionError`).
* Fallible Python code returns `Except PyError`.
-/

namespace TeeTimes

/-- Model of a Python `datetime.datetime`: calendar fields plus an optional
fixed UTC offset in whole minutes (`none` for a naive datetime). -/
structure DateTime where
  year : Nat
  month : Nat
  day : Nat
  hour : Nat
  minute : Nat
  second : Nat
  microsecond : Nat
  tzOffsetMin : Option Int
deriving DecidableEq, Repr

def isLeapYear (y : Nat) : Bool :=
  (y % 4 == 0 && y % 100 != 0) || y % 400 == 0

def daysInMonth (y m : Nat) : Nat :=
  if m = 2 then (if isLeapYear y then 29 else 28)
  else if m = 4 ∨ m = 6 ∨ m = 9 ∨ m = 11 then 30
  else 31

/-- Field ranges enforced by the `datetime.datetime` constructor. -/
def DateTime.WF (dt : DateTime) : Prop :=
  1 ≤ dt.year ∧ dt.year ≤ 9999 ∧ 1 ≤ dt.month ∧ dt.month ≤ 12 ∧
  1 ≤ dt.day ∧ dt.day ≤ daysInMonth dt.year dt.month ∧
  dt.hour ≤ 23 ∧ dt.minute ≤ 59 ∧ dt.second ≤ 59 ∧ dt.microsecond ≤ 999999 ∧
  -1439 ≤ dt.tzOffsetMin.getD 0 ∧ dt.tzOffsetMin.getD 0 ≤ 1439

instance (dt : DateTime) : Decidable dt.WF := by
  unfold DateTime.WF; exact inferInstance

/-- Decimal digit character, as Python's zero-padded `%d` formatting produces. -/
def digitCh (n : Nat) : Char := Char.ofNat (48 + n)

def pad2 (n : Nat) : List Char := [digitCh (n / 10), digitCh (n % 10)]

def pad4 (n : Nat) : List Char :=
  [digitCh (n / 1000), digitCh (n / 100 % 10), digitCh (n / 10 % 10), digitCh (n % 10)]

def pad6 (n : Nat) : List Char :=
  [digitCh (n / 100000), digitCh (n / 10000 % 10), digitCh (n / 1000 % 10),
   digitCh (n / 100 % 10), digitCh (n / 10 % 10), digitCh (n % 10)]

/-- UTC-offset suffix of `datetime.isoformat()`: empty for a naive value,
otherwise a sign followed by `HH:MM`. -/
def tzChars : Option Int → List Char
  | none => []
  | some o => (if 0 ≤ o then '+' else '-') :: (pad2 (o.natAbs / 60) ++ ':' :: pad2 (o.natAbs % 60))

/-- Fractional-second part of `datetime.isoformat()`: omitted when the
microsecond field is zero, otherwise `.` plus six digits. -/
def microChars (us : Nat) : List Char := if us = 0 then [] else '.' :: pad6 us

/-- Character-list form of `slot_datetime.isoformat()`. -/
def isoformatChars (dt : DateTime) : List Char :=
  pad4 dt.year ++ '-' :: pad2 dt.month ++ '-' :: pad2 dt.day ++
  'T' :: pad2 dt.hour ++ ':' :: pad2 dt.minute ++ ':' :: pad2 dt.second ++
  microChars dt.microsecond ++ tzChars dt.tzOffsetMin

/-- Python `slot_datetime.isoformat()`. -/
def isoformat (dt : DateTime) : String := String.mk (isoformatChars dt)

/-- Python `NotificationTracker._generate_slot_key`:
`f"notified_slot:\x7bcourse\x7d:\x7bslot_datetime.isoformat()\x7d2"`
(the trailing `2` is literal in the source). -/
def generate_slot_key (course : String) (dt : DateTime) : String :=
  "notified_slot:" ++ course ++ ":" ++ isoformat dt ++ "2"

/-- Value of a decimal digit character, if it is one. -/
def digitVal (c : Char) : Option Nat :=
  if 48 ≤ c.toNat ∧ c.toNat ≤ 57 then some (c.toNat - 48) else none

/-- Read exactly `n` decimal digits, most significant first, on top of `acc`. -/
def parseDigits : Nat → Nat → List Char → Option (Nat × List Char)
  | 0, acc, cs => some (acc, cs)
  | _ + 1, _, [] => none
  | n + 1, acc, c :: cs =>
    match digitVal c with
    | none => none
    | some d => parseDigits n (acc * 10 + d) cs

def expectCh (c : Char) : List Char → Option (List Char)
  | [] => none
  | x :: xs => if x = c then some xs else none

/-- Trailing UTC-offset part accepted by `datetime.fromisoformat`. -/
def parseTz (cs : List Char) : Option (Option Int × List Char) :=
  match cs with
  | [] => some (none, [])
  | c :: rest =>
    if c = '+' ∨ c = '-' then
      match parseDigits 2 0 rest with
      | none => none
      | some (hh, r1) =>
        match expectCh ':' r1 with
        | none => none
        | some r2 =>
          match parseDigits 2 0 r2 with
          | none => none
          | some (mm, r3) =>
            if hh ≤ 23 ∧ mm ≤ 59 then
              some (some (if c = '+' then ((hh : Int) * 60 + mm) else -((hh : Int) * 60 + mm)), r3)
            else none
    else none

/-- Character-list form of `datetime.fromisoformat` on the canonical
`isoformat` output grammar; `none` models the `ValueError` raised on a
malformed string. -/
def fromisoChars (cs : List Char) : Option DateTime := do
  let (y, r1) ← parseDigits 4 0 cs
  let r2 ← expectCh '-' r1
  let (mo, r3) ← parseDigits 2 0 r2
  let r4 ← expectCh '-' r3
  let (d, r5) ← parseDigits 2 0 r4
  let r6 ← expectCh 'T' r5
  let (h, r7) ← parseDigits 2 0 r6
  let r8 ← expectCh ':' r7
  let (mi, r9) ← parseDigits 2 0 r8
  let r10 ← expectCh ':' r9
  let (s, r11) ← parseDigits 2 0 r10
  let (us, r12) ←
    match r11 with
    | '.' :: rest => parseDigits 6 0 rest
    | _ => some ((0 : Nat), r11)
  let (tz, r13) ← parseTz r12
  let dt : DateTime := ⟨y, mo, d, h, mi, s, us, tz⟩
  if r13 = [] ∧ dt.WF then some dt else none

/-- Python `datetime.fromisoformat`. -/
def fromisoformat (s : String) : Option DateTime := fromisoChars s.data

/-- Serial day number of a calendar date (days since 0000-03-01), the standard
civil-calendar algorithm; defined for `1 ≤ y`. -/
def daysFromCivil (y m d : Nat) : Nat :=
  let y2 := if m ≤ 2 then y - 1 else y
  let era := y2 / 400
  let yoe := y2 % 400
  let mp := if 2 < m then m - 3 else m + 9
  let doy := (153 * mp + 2) / 5 + d - 1
  let doe := yoe * 365 + yoe / 4 - yoe / 100 + doy
  era * 146097 + doe

/-- Inverse of `daysFromCivil`. -/
def civilFromDays (z : Nat) : Nat × Nat × Nat :=
  let era := z / 146097
  let doe := z % 146097
  let yoe := (doe - doe / 1460 + doe / 36524 - doe / 146096) / 365
  let y2 := yoe + era * 400
  let doy := doe - (365 * yoe + yoe / 4 - yoe / 100)
  let mp := (5 * doy + 2) / 153
  let d := doy - (153 * mp + 2) / 5 + 1
  let m := if mp < 10 then mp + 3 else mp - 9
  if m ≤ 2 then (y2 + 1, m, d) else (y2, m, d)

/-- Python `dt - timedelta(days=days)`: shifts the date part, keeping
time-of-day and tzinfo; `none` models the `OverflowError` raised when the
result falls outside `datetime`'s year range. -/
def dtSubDays (dt : DateTime) (days : Nat) : Option DateTime :=
  let g := daysFromCivil dt.year dt.month dt.day
  if g < days + 306 then none
  else
    let c := civilFromDays (g - days)
    some { dt with year := c.1, month := c.2.1, day := c.2.2 }

/-- Python comparison of two naive datetimes: lexicographic on the fields. -/
def fieldsLtB (a b : DateTime) : Bool :=
  if a.year ≠ b.year then decide (a.year < b.year)
  else if a.month ≠ b.month then decide (a.month < b.month)
  else if a.day ≠ b.day then decide (a.day < b.day)
  else if a.hour ≠ b.hour then decide (a.hour < b.hour)
  else if a.minute ≠ b.minute then decide (a.minute < b.minute)
  else if a.second ≠ b.second then decide (a.second < b.second)
  else decide (a.microsecond < b.microsecond)

/-- Microseconds since the `daysFromCivil` epoch, UTC-adjusted. -/
def epochMicro (dt : DateTime) : Int :=
  (daysFromCivil dt.year dt.month dt.day : Int) * 86400000000 +
  (((dt.hour * 60 + dt.minute) * 60 + dt.second : Nat) : Int) * 1000000 +
  (dt.microsecond : Int) - dt.tzOffsetMin.getD 0 * 60000000

/-- Python `a < b` on datetimes: naive pairs compare by fields, aware pairs by
UTC instant, and a mixed pair raises `TypeError` (modelled as `none`). -/
def dtLt (a b : DateTime) : Option Bool :=
  match a.tzOffsetMin, b.tzOffsetMin with
  | none, none => some (fieldsLtB a b)
  | some _, some _ => some (decide (epochMicro a < epochMicro b))
  | _, _ => none

/-- Errors the Python code can raise. -/
inductive PyError where
  | connectionError
  | valueError
  | overflowError
deriving DecidableEq, Repr

/-- One stored Redis key: its string value and absolute expiry instant
(seconds on the Redis clock).  `recordedAt` is ghost bookkeeping of when the
entry was written, used only to state claims about entry age. -/
structure RedisEntry where
  key : String
  value : String
  expiresAt : Int
  recordedAt : Int
deriving DecidableEq, Repr

structure RedisState where
  entries : List RedisEntry
deriving DecidableEq, Repr

/-- A key is visible while the Redis clock has not reached its expiry. -/
def liveAt (now : Int) (e : RedisEntry) : Bool := decide (now < e.expiresAt)

/-- Redis `EXISTS key` (count of existing keys among the arguments). -/
def redisExists (avail : Bool) (now : Int) (s : RedisState) (k : String) :
    Except PyError Nat :=
  if avail then
    .ok (if s.entries.any (fun e => e.key == k && liveAt now e) then 1 else 0)
  else .error .connectionError

/-- State after a successful `SETEX`: any existing entry for the key is
replaced and a fresh TTL starts at `now`. -/
def setexState (now : Int) (s : RedisState) (k : String) (ttlSec : Int)
    (v : String) : RedisState :=
  ⟨(s.entries.filter fun e => !(e.key == k)) ++ [⟨k, v, now + ttlSec, now⟩]⟩

/-- Redis `SETEX key ttl value`: overwrites any existing entry for the key and
starts a fresh TTL; a non-positive TTL is rejected by the server. -/
def redisSetex (avail : Bool) (now : Int) (s : RedisState) (k : String)
    (ttlSec : Int) (v : String) : Except PyError RedisState :=
  if avail then
    if ttlSec ≤ 0 then .error .valueError
    else .ok (setexState now s k ttlSec v)
  else .error .connectionError

/-- Redis `KEYS pfx*`: the keys of unexpired entries whose key starts with
`pfx`. -/
def redisKeysPfx (avail : Bool) (now : Int) (s : RedisState) (pfx : String) :
    Except PyError (List String) :=
  if avail then
    .ok ((s.entries.filter fun e => pfx.data.isPrefixOf e.key.data && liveAt now e).map fun e => e.key)
  else .error .connectionError

/-- Redis `GET key`: the value of an unexpired entry, else `None`. -/
def redisGet (avail : Bool) (now : Int) (s : RedisState) (k : String) :
    Except PyError (Option String) :=
  if avail then
    .ok ((s.entries.find? fun e => e.key == k && liveAt now e).map fun e => e.value)
  else .error .connectionError

/-- Redis `DEL key`. -/
def redisDel (avail : Bool) (s : RedisState) (k : String) :
    Except PyError RedisState :=
  if avail then .ok ⟨s.entries.filter fun e => !(e.key == k)⟩
  else .error .connectionError

/-- Python `NotificationTracker.__init__`: `REDIS_URL` read from the
environment (`none` = unset); a falsy value raises `ValueError`, a failed
`ping` raises `redis.ConnectionError`, which the `except` clause re-raises. -/
def initTracker (redisUrl : Option String) (pingOk : Bool) : Except PyError Unit :=
  match redisUrl with
  | none => .error .valueError
  | some u =>
    if u = "" then .error .valueError
    else if pingOk then .ok () else .error .connectionError

/-- Python `NotificationTracker.is_slot_notified`:
`self.redis_client.exists(key) > 0`. -/
def is_slot_notified (avail : Bool) (now : Int) (s : RedisState)
    (course : String) (dt : DateTime) : Except PyError Bool :=
  (redisExists avail now s (generate_slot_key course dt)).map fun n => decide (0 < n)

/-- Python `NotificationTracker.mark_slot_notified`:
`setex(key, ttl_days*24*60*60, slot_datetime.isoformat())`. -/
def mark_slot_notified (avail : Bool) (now : Int) (s : RedisState)
    (course : String) (dt : DateTime) (ttlDays : Nat := 7) : Except PyError RedisState :=
  redisSetex avail now s (generate_slot_key course dt)
    ((ttlDays : Int) * 24 * 60 * 60) (isoformat dt)

/-- Python `NotificationTracker.get_notified_slots_count`:
`len(self.redis_client.keys("notified_slot:*"))`. -/
def get_notified_slots_count (avail : Bool) (now : Int) (s : RedisState) :
    Except PyError Nat :=
  (redisKeysPfx avail now s "notified_slot:").map List.length

/-- Loop body of `cleanup_old_slots` for one key: get the stored value, parse
it, delete and count when the parsed slot time is before the cutoff; any
exception in the body (unparseable value, mixed-awareness comparison, backend
error) is caught and the key skipped. -/
def cleanupStep (avail : Bool) (now : Int) (cut : DateTime)
    (acc : Nat × RedisState) (k : String) : Nat × RedisState :=
  match redisGet avail now acc.2 k with
  | .error _ => acc
  | .ok none => acc
  | .ok (some v) =>
    if v = "" then acc
    else
      match fromisoformat v with
      | none => acc
      | some st =>
        match dtLt st cut with
        | none => acc
        | some b =>
          if b then
            match redisDel avail acc.2 k with
            | .error _ => acc
            | .ok s2 => (acc.1 + 1, s2)
          else acc

/-- Python `NotificationTracker.cleanup_old_slots`: list the live
`notified_slot:*` keys, compute `cutoff = now - timedelta(days=days_old)`,
then per key delete and count entries whose stored slot time parses and is
before the cutoff, skipping keys whose processing raises. -/
def cleanup_old_slots (avail : Bool) (now : Int) (nowDt : DateTime)
    (s : RedisState) (daysOld : Nat := 7) : Except PyError (Nat × RedisState) :=
  match redisKeysPfx avail now s "notified_slot:" with
  | .error e => .error e
  | .ok ks =>
    match dtSubDays nowDt daysOld with
    | none => .error .overflowError
    | some cut => .ok (ks.foldl (cleanupStep avail now cut) (0, s))

/-- An entry in the tracker's key namespace (matches `notified_slot:*`). -/
def isSlotKey (e : RedisEntry) : Bool := "notified_slot:".data.isPrefixOf e.key.data

/-- Decision `cleanup_old_slots` makes from an entry's stored value: delete when
the value is a non-empty timestamp string that parses and compares strictly
before the cutoff. -/
def valueBeforeCut (cut : DateTime) (e : RedisEntry) : Bool :=
  !(e.value == "") &&
    (match fromisoformat e.value with
     | none => false
     | some st => (dtLt st cut).getD false)

/-- An entry `cleanup_old_slots` deletes: visible under the key pattern and
with a stored slot time before the cutoff. -/
def sweptBy (now : Int) (cut : DateTime) (e : RedisEntry) : Bool :=
  isSlotKey e && liveAt now e && valueBeforeCut cut e

/-! ## Helper lemmas -/

theorem is_slot_notified_ok (now : Int) (s : RedisState) (c : String) (dt : DateTime) :
    is_slot_notified true now s c dt =
      .ok (s.entries.any fun e => e.key == generate_slot_key c dt && liveAt now e) := by
  cases h : s.entries.any (fun e => e.key == generate_slot_key c dt && liveAt now e) <;>
    simp [is_slot_notified, redisExists, Except.map, h]

theorem mark_slot_notified_ok (now : Int) (s : RedisState) (c : String) (dt : DateTime)
    (d : Nat) (hd : 0 < d) :
    mark_slot_notified true now s c dt d =
      .ok (setexState now s (generate_slot_key c dt) ((d : Int) * 24 * 60 * 60) (isoformat dt)) := by
  have he : ((d : Nat) : Int) * 24 * 60 * 60 = (d : Int) * 86400 := by ring
  have hd' : (0 : Int) < (d : Nat) := by exact_mod_cast hd
  have hpos : ¬ (((d : Nat) : Int) * 24 * 60 * 60 ≤ 0) := by rw [he]; omega
  unfold mark_slot_notified redisSetex
  simp [hpos]

theorem any_key_setexState (now' now ttl : Int) (s : RedisState) (k k2 v : String) :
    ((setexState now s k ttl v).entries.any fun e => e.key == k2 && liveAt now' e) =
      (if k2 = k then liveAt now' ⟨k, v, now + ttl, now⟩
       else s.entries.any fun e => e.key == k2 && liveAt now' e) := by
  unfold setexState
  rcases eq_or_ne k2 k with hk | hk
  · subst hk
    simp only [List.any_append, if_pos rfl]
    have hfilter : ((s.entries.filter fun e => !(e.key == k2)).any
        fun e => e.key == k2 && liveAt now' e) = false := by
      rw [List.any_eq_false]
      intro e he
      have := (List.mem_filter.mp he).2
      simp_all
    simp [hfilter]
  · simp only [List.any_append, if_neg hk]
    have h1 : ((s.entries.filter fun e => !(e.key == k)).any
        fun e => e.key == k2 && liveAt now' e) =
        (s.entries.any fun e => e.key == k2 && liveAt now' e) := by
      rw [Bool.eq_iff_iff, List.any_eq_true, List.any_eq_true]
      constructor
      · rintro ⟨e, he, hp⟩
        exact ⟨e, (List.mem_filter.mp he).1, hp⟩
      · rintro ⟨e, he, hp⟩
        refine ⟨e, List.mem_filter.mpr ⟨he, ?_⟩, hp⟩
        have : e.key = k2 := by simpa using (Bool.and_elim_left hp)
        simp [this, hk]
    have h2 : (([(⟨k, v, now + ttl, now⟩ : RedisEntry)].any
        fun e => e.key == k2 && liveAt now' e)) = false := by
      simp [Ne.symm hk]
    simp [h1, h2]

/-! ## C2: backend unavailability is propagated, never converted to `false` -/

/-- C2: when the backing store is unavailable, `is_slot_notified` fails with
the connection error and never returns a (false) boolean result. -/
theorem is_notified_backend_down (now : Int) (s : RedisState) (c : String) (dt : DateTime) :
    is_slot_notified false now s c dt = .error .connectionError ∧
    ∀ b : Bool, is_slot_notified false now s c dt ≠ .ok b := by
  refine ⟨rfl, ?_⟩
  intro b h
  simp [is_slot_notified, redisExists, Except.map] at h

theorem is_notified_backend_down_witness :
    is_slot_notified false 0 (⟨[]⟩ : RedisState) "c" ⟨2025, 6, 1, 17, 0, 0, 0, none⟩ =
      .error .connectionError ∧
    is_slot_notified false 0 (⟨[]⟩ : RedisState) "c" ⟨2025, 6, 1, 17, 0, 0, 0, none⟩ ≠
      .ok false :=
  ⟨(is_notified_backend_down 0 ⟨[]⟩ "c" ⟨2025, 6, 1, 17, 0, 0, 0, none⟩).1,
   (is_notified_backend_down 0 ⟨[]⟩ "c" ⟨2025, 6, 1, 17, 0, 0, 0, none⟩).2 false⟩

/-! ## C9: construction fails fast -/

/-- C9: constructing the tracker raises `ValueError` when `REDIS_URL` is absent
from the environment, raises when the connection-test ping fails, and a tracker
exists (`.ok`) only when the URL was present, non-empty, and the ping
succeeded. -/
theorem initTracker_fails_fast (u : String) (p : Bool) :
    initTracker none p = .error .valueError ∧
    (u ≠ "" → initTracker (some u) false = .error .connectionError) ∧
    (∀ env, initTracker env p = .ok () → p = true ∧ ∃ v, env = some v ∧ v ≠ "") := by
  refine ⟨rfl, ?_, ?_⟩
  · intro hu
    unfold initTracker
    simp [hu]
  · intro env h
    match env with
    | none => simp [initTracker] at h
    | some v =>
      unfold initTracker at h
      by_cases hv : v = "" <;> by_cases hp : p = true <;> simp_all

theorem initTracker_fails_fast_witness :
    initTracker (some "redis://host") false = .error .connectionError ∧
    (true = true ∧ ∃ v, (some "redis://host" : Option String) = some v ∧ v ≠ "") :=
  ⟨(initTracker_fails_fast "redis://host" true).2.1 (by decide),
   (initTracker_fails_fast "redis://host" true).2.2 (some "redis://host") rfl⟩

/-! ## C6: no input validation / no `EncodingError` exists in the code -/

/-- Sample naive datetime used in concrete counterexamples. -/
def sampleDt : DateTime := ⟨2025, 6, 1, 17, 0, 0, 0, none⟩

/-- C6 counterexample: calling `mark_slot_notified` with an empty (malformed)
course identifier is not rejected before reaching the backend — it succeeds
and writes an entry, so the store is changed and no `EncodingError` is
raised. -/
theorem no_encoding_error_cex :
    mark_slot_notified true 0 ⟨[]⟩ "" sampleDt 7 =
      .ok ⟨[⟨"notified_slot::2025-06-01T17:00:002", "2025-06-01T17:00:00", 604800, 0⟩]⟩ := by
  rfl

/-- C6 amended: the code performs no input validation at all.  For every
input — including an empty course identifier — a call with an available
backend reaches the backend and returns a non-error result, and
`mark_slot_notified` writes the encoded key into the store. -/
theorem no_input_validation (now : Int) (s : RedisState) (course : String)
    (dt : DateTime) (ttl : Nat) :
    (∃ b, is_slot_notified true now s course dt = .ok b) ∧
    (0 < ttl → ∃ s', mark_slot_notified true now s course dt ttl = .ok s' ∧
      generate_slot_key course dt ∈ s'.entries.map RedisEntry.key) := by
  constructor
  · exact ⟨_, is_slot_notified_ok now s course dt⟩
  · intro ht
    refine ⟨_, mark_slot_notified_ok now s course dt ttl ht, ?_⟩
    unfold setexState
    simp

theorem no_input_validation_witness :
    ∃ s', mark_slot_notified true 0 ⟨[]⟩ "" sampleDt 7 = .ok s' ∧
      generate_slot_key "" sampleDt ∈ s'.entries.map RedisEntry.key :=
  (no_input_validation 0 ⟨[]⟩ "" sampleDt 7).2 (by decide)

/-! ## C3: re-marking resets the TTL (`SETEX` is last-write-wins) -/

/-- Store after marking `("c", sampleDt)` at Redis time `0` with a 7-day TTL. -/
def c3state1 : RedisState :=
  ⟨[⟨"notified_slot:c:2025-06-01T17:00:002", "2025-06-01T17:00:00", 604800, 0⟩]⟩

/-- Store after re-marking the same slot at Redis time `100`. -/
def c3state2 : RedisState :=
  ⟨[⟨"notified_slot:c:2025-06-01T17:00:002", "2025-06-01T17:00:00", 604900, 100⟩]⟩

/-- C3 counterexample: mark at time `0` with a 7-day TTL (expiry instant
`604800`), re-mark at time `100`; at time `604850` the first mark's TTL has
elapsed, yet the slot is still notified — the entry does not expire at the
instant fixed by the first mark, so the first write does not win. -/
theorem remark_keeps_entry_past_first_expiry_cex :
    mark_slot_notified true 0 ⟨[]⟩ "c" sampleDt 7 = .ok c3state1 ∧
    mark_slot_notified true 100 c3state1 "c" sampleDt 7 = .ok c3state2 ∧
    (0 + (7 : Int) * 24 * 60 * 60 ≤ 604850) ∧
    is_slot_notified true 604850 c3state2 "c" sampleDt = .ok true := by
  refine ⟨rfl, rfl, by decide, rfl⟩

/-- C3 amended: re-marking an already-marked key overwrites the entry and
resets its expiry — after a second `mark_slot_notified` at time `n2` with
`ttl2`, the slot reads as notified exactly while `now < n2 + ttl2` (in
seconds), regardless of the first mark's time and TTL (last write wins). -/
theorem remark_resets_expiry (s s1 s2 : RedisState) (c : String) (dt : DateTime)
    (n1 n2 now : Int) (t1 t2 : Nat)
    (h1 : mark_slot_notified true n1 s c dt t1 = .ok s1)
    (h2 : mark_slot_notified true n2 s1 c dt t2 = .ok s2) :
    is_slot_notified true now s2 c dt =
      .ok (decide (now < n2 + (t2 : Int) * 24 * 60 * 60)) := by
  have ht2 : 0 < t2 := by
    by_contra hz
    have : t2 = 0 := by omega
    subst this
    simp [mark_slot_notified, redisSetex] at h2
  rw [mark_slot_notified_ok n2 s1 c dt t2 ht2] at h2
  have hs2 : s2 = setexState n2 s1 (generate_slot_key c dt) ((t2 : Int) * 24 * 60 * 60)
      (isoformat dt) := by
    exact (Except.ok.injEq _ _ ▸ h2.symm : _)
  subst hs2
  rw [is_slot_notified_ok, any_key_setexState]
  simp [liveAt]

theorem remark_resets_expiry_witness :
    is_slot_notified true 604850 c3state2 "c" sampleDt =
      .ok (decide ((604850 : Int) < 100 + (7 : Int) * 24 * 60 * 60)) :=
  remark_resets_expiry ⟨[]⟩ c3state1 c3state2 "c" sampleDt 0 100 604850 7 7 rfl rfl

/-! ## C1: single-entry lifecycle -/

/-- C1: for a `(course, slot_datetime)` pair, `is_slot_notified` is `false` in
any store holding no entry for that pair's key; after `mark_slot_notified` at
time `t0` with `d` days of TTL it is `true` at every instant before
`t0 + d` days and `false` at every instant from `t0 + d` days on. -/
theorem slot_lifecycle (s s' : RedisState) (c : String) (dt : DateTime)
    (t0 now1 now2 now3 : Int) (d : Nat) :
    ((∀ e ∈ s.entries, e.key ≠ generate_slot_key c dt) →
      is_slot_notified true now1 s c dt = .ok false) ∧
    (mark_slot_notified true t0 s c dt d = .ok s' →
      (now2 < t0 + (d : Int) * 24 * 60 * 60 → is_slot_notified true now2 s' c dt = .ok true) ∧
      (t0 + (d : Int) * 24 * 60 * 60 ≤ now3 → is_slot_notified true now3 s' c dt = .ok false)) := by
  constructor
  · intro hno
    rw [is_slot_notified_ok]
    have : (s.entries.any fun e => e.key == generate_slot_key c dt && liveAt now1 e) = false := by
      rw [List.any_eq_false]
      intro e he
      simp [hno e he]
    rw [this]
  · intro hm
    have hd : 0 < d := by
      by_contra hz
      have : d = 0 := by omega
      subst this
      simp [mark_slot_notified, redisSetex] at hm
    rw [mark_slot_notified_ok t0 s c dt d hd] at hm
    have hs' : s' = setexState t0 s (generate_slot_key c dt) ((d : Int) * 24 * 60 * 60)
        (isoformat dt) := by
      exact (Except.ok.injEq _ _ ▸ hm.symm : _)
    subst hs'
    constructor
    · intro hlt
      rw [is_slot_notified_ok, any_key_setexState]
      simp [liveAt, hlt]
    · intro hge
      rw [is_slot_notified_ok, any_key_setexState]
      simp [liveAt]
      omega

theorem slot_lifecycle_witness :
    is_slot_notified true 5 (⟨[]⟩ : RedisState) "c" sampleDt = .ok false ∧
    is_slot_notified true 604799 c3state1 "c" sampleDt = .ok true ∧
    is_slot_notified true 604800 c3state1 "c" sampleDt = .ok false := by
  have h := slot_lifecycle ⟨[]⟩ c3state1 "c" sampleDt 0 5 604799 604800 7
  refine ⟨h.1 (by intro e he; simp at he), ?_, ?_⟩
  · exact (h.2 rfl).1 (by decide)
  · exact (h.2 rfl).2 (by decide)

/-! ## C8: marking twice does not raise and leaves the slot notified -/

/-- C8: with the backend available, two successive `mark_slot_notified` calls
on the same `(course, slot_datetime)` key both return `.ok` (no exception),
and immediately afterwards `is_slot_notified` still reports `true`. -/
theorem mark_twice_idempotent (s : RedisState) (c : String) (dt : DateTime)
    (n1 n2 : Int) (t1 t2 : Nat) (h1 : 0 < t1) (h2 : 0 < t2) :
    ∃ s1 s2, mark_slot_notified true n1 s c dt t1 = .ok s1 ∧
      mark_slot_notified true n2 s1 c dt t2 = .ok s2 ∧
      is_slot_notified true n2 s2 c dt = .ok true := by
  refine ⟨_, _, mark_slot_notified_ok n1 s c dt t1 h1,
    mark_slot_notified_ok n2 _ c dt t2 h2, ?_⟩
  rw [is_slot_notified_ok, any_key_setexState]
  have ht : (0 : Int) < (t2 : Nat) := by exact_mod_cast h2
  have he : ((t2 : Nat) : Int) * 24 * 60 * 60 = (t2 : Int) * 86400 := by ring
  simp only [if_pos rfl, liveAt]
  rw [he]
  simp
  omega

theorem mark_twice_idempotent_witness :
    ∃ s1 s2, mark_slot_notified true 0 (⟨[]⟩ : RedisState) "c" sampleDt 7 = .ok s1 ∧
      mark_slot_notified true 100 s1 "c" sampleDt 7 = .ok s2 ∧
      is_slot_notified true 100 s2 "c" sampleDt = .ok true :=
  mark_twice_idempotent ⟨[]⟩ "c" sampleDt 0 100 7 7 (by decide) (by decide)

/-! ## C7: live-entry count -/

theorem slotKey_hasPfx (c : String) (dt : DateTime) :
    "notified_slot:".data.isPrefixOf (generate_slot_key c dt).data = true := by
  rw [List.isPrefixOf_iff_prefix]
  unfold generate_slot_key
  rw [String.data_append]
  exact List.prefix_append _ _

/-- C7: when the store holds only tracker entries (keys in the
`notified_slot:` namespace), `get_notified_slots_count` returns exactly the
number of unexpired entries; marking one slot that is not currently notified
increases the count by exactly one. -/
theorem count_live_entries (s s' : RedisState) (now : Int) (c : String)
    (dt : DateTime) (d : Nat)
    (hpfx : ∀ e ∈ s.entries, isSlotKey e = true) :
    get_notified_slots_count true now s = .ok (s.entries.countP (liveAt now)) ∧
    (is_slot_notified true now s c dt = .ok false →
      mark_slot_notified true now s c dt d = .ok s' →
      get_notified_slots_count true now s' = .ok (s.entries.countP (liveAt now) + 1)) := by
  have hcount : ∀ t : RedisState, get_notified_slots_count true now t =
      .ok (t.entries.countP fun e =>
        "notified_slot:".data.isPrefixOf e.key.data && liveAt now e) := by
    intro t
    unfold get_notified_slots_count redisKeysPfx
    simp [Except.map, List.countP_eq_length_filter]
  constructor
  · rw [hcount]
    congr 1
    refine List.countP_congr fun e he => ?_
    have hk := hpfx e he
    unfold isSlotKey at hk
    simp [hk]
  · intro hfalse hm
    have hd : 0 < d := by
      by_contra hz
      have : d = 0 := by omega
      subst this
      simp [mark_slot_notified, redisSetex] at hm
    rw [mark_slot_notified_ok now s c dt d hd] at hm
    have hs' : s' = setexState now s (generate_slot_key c dt) ((d : Int) * 24 * 60 * 60)
        (isoformat dt) := by
      exact (Except.ok.injEq _ _ ▸ hm.symm : _)
    subst hs'
    rw [is_slot_notified_ok] at hfalse
    have hany : (s.entries.any fun e =>
        e.key == generate_slot_key c dt && liveAt now e) = false := by
      by_contra hx
      rw [Bool.not_eq_false] at hx
      rw [hx] at hfalse
      simp at hfalse
    rw [List.any_eq_false] at hany
    rw [hcount]
    unfold setexState
    congr 1
    rw [List.countP_append, List.countP_filter]
    have hone : (List.countP (fun e =>
        "notified_slot:".data.isPrefixOf e.key.data && liveAt now e)
        [(⟨generate_slot_key c dt, isoformat dt, now + (d : Int) * 24 * 60 * 60, now⟩ :
          RedisEntry)]) = 1 := by
      have hp := slotKey_hasPfx c dt
      have hl : liveAt now (⟨generate_slot_key c dt, isoformat dt,
          now + (d : Int) * 24 * 60 * 60, now⟩ : RedisEntry) = true := by
        unfold liveAt
        have he : ((d : Nat) : Int) * 24 * 60 * 60 = (d : Int) * 86400 := by ring
        have hd' : (0 : Int) < (d : Nat) := by exact_mod_cast hd
        simp only []
        rw [he]
        simp
        omega
      simp [hp, hl]
    rw [hone]
    congr 1
    refine List.countP_congr fun e he => ?_
    have hk := hpfx e he
    unfold isSlotKey at hk
    have hkey : liveAt now e = true → e.key ≠ generate_slot_key c dt := by
      intro hl hkk
      apply hany e he
      simp [hkk, hl]
    constructor
    · intro h
      simp only [Bool.and_eq_true] at h
      exact h.1.2
    · intro h
      simp only [Bool.and_eq_true]
      refine ⟨⟨hk, h⟩, ?_⟩
      simp [hkey h]

/-- Concrete store for the C7 witness: one live entry, one expired entry. -/
def c7s : RedisState :=
  ⟨[⟨"notified_slot:a", "x", 2000, 0⟩, ⟨"notified_slot:b", "y", 500, 0⟩]⟩

/-- The store `c7s` after marking `("c", sampleDt)` at Redis time `1000`. -/
def c7s2 : RedisState :=
  ⟨[⟨"notified_slot:a", "x", 2000, 0⟩, ⟨"notified_slot:b", "y", 500, 0⟩,
    ⟨"notified_slot:c:2025-06-01T17:00:002", "2025-06-01T17:00:00", 605800, 1000⟩]⟩

theorem count_live_entries_witness :
    get_notified_slots_count true 1000 c7s = .ok (c7s.entries.countP (liveAt 1000)) ∧
    get_notified_slots_count true 1000 c7s2 = .ok (c7s.entries.countP (liveAt 1000) + 1) := by
  have h := count_live_entries c7s c7s2 1000 "c" sampleDt 7 (by decide)
  exact ⟨h.1, h.2 rfl rfl⟩

/-! ## Characterization of `cleanup_old_slots` -/

theorem countP_split {α : Type} (l : List α) (p q : α → Bool) :
    l.countP p = l.countP (fun a => p a && q a) + l.countP (fun a => p a && !q a) := by
  induction l with
  | nil => simp
  | cons a l ih =>
    by_cases hp : p a = true <;> by_cases hq : q a = true <;>
      simp [List.countP_cons, hp, hq, ih] <;> omega

theorem filter_key_singleton :
    ∀ (l : List RedisEntry), (l.map RedisEntry.key).Nodup →
      ∀ e0 ∈ l, l.filter (fun e => e.key == e0.key) = [e0] := by
  intro l
  induction l with
  | nil => intro _ e0 h; simp at h
  | cons a l ih =>
    intro hn e0 he0
    have hn' : (l.map RedisEntry.key).Nodup := (List.nodup_cons.mp (by simpa using hn)).2
    have hna : a.key ∉ l.map RedisEntry.key := (List.nodup_cons.mp (by simpa using hn)).1
    rcases List.mem_cons.mp he0 with rfl | hmem
    · rw [List.filter_cons_of_pos (by simp)]
      have : l.filter (fun e => e.key == e0.key) = [] := by
        rw [List.filter_eq_nil_iff]
        intro x hx hkey
        exact hna (by
          have : x.key = e0.key := by simpa using hkey
          rw [← this]
          exact List.mem_map_of_mem RedisEntry.key hx)
      rw [this]
    · have hak : a.key ≠ e0.key := by
        intro h
        exact hna (h ▸ List.mem_map_of_mem RedisEntry.key hmem)
      rw [List.filter_cons_of_neg (by simpa using hak)]
      exact ih hn' e0 hmem

/-- One fold characterization used for both cleanup claims: running the
per-key loop of `cleanup_old_slots` over any key list deletes exactly the
unexpired entries whose key is in the list and whose stored value is a
non-empty parseable timestamp before the cutoff, and counts exactly the
deletions. -/
theorem cleanup_foldl_spec (now : Int) (cut : DateTime) :
    ∀ (ks : List String) (t : RedisState) (n : Nat),
      (t.entries.map RedisEntry.key).Nodup →
      ks.foldl (cleanupStep true now cut) (n, t) =
        (n + t.entries.countP (fun e =>
            decide (e.key ∈ ks) && (liveAt now e && valueBeforeCut cut e)),
         ⟨t.entries.filter fun e =>
            !(decide (e.key ∈ ks) && (liveAt now e && valueBeforeCut cut e))⟩) := by
  intro ks
  induction ks with
  | nil =>
    intro t n _
    simp
  | cons k ks ih =>
    intro t n hn
    rw [List.foldl_cons]
    by_cases hf : ∃ e0, t.entries.find? (fun e => e.key == k && liveAt now e) = some e0
    · obtain ⟨e0, hf⟩ := hf
      have he0 : e0 ∈ t.entries := List.mem_of_find?_eq_some hf
      have hp0 := List.find?_some hf
      simp only [Bool.and_eq_true, beq_iff_eq] at hp0
      have he0k : e0.key = k := hp0.1
      have he0l : liveAt now e0 = true := hp0.2
      have hinj : ∀ e ∈ t.entries, e.key = k → e = e0 := by
        intro e he hek
        exact List.inj_on_of_nodup_map hn he he0 (by rw [hek, he0k])
      -- helper for all skip branches of this key
      have hskip : valueBeforeCut cut e0 = false →
          List.foldl (cleanupStep true now cut) (n, t) ks =
            (n + t.entries.countP (fun e =>
                decide (e.key ∈ k :: ks) && (liveAt now e && valueBeforeCut cut e)),
             ⟨t.entries.filter fun e =>
                !(decide (e.key ∈ k :: ks) && (liveAt now e && valueBeforeCut cut e))⟩) := by
        intro hvbc
        rw [ih t n hn]
        have hpt : ∀ e ∈ t.entries,
            (decide (e.key ∈ ks) && (liveAt now e && valueBeforeCut cut e)) =
            (decide (e.key ∈ k :: ks) && (liveAt now e && valueBeforeCut cut e)) := by
          intro e he
          by_cases hek : e.key = k
          · have : e = e0 := hinj e he hek
            subst this
            simp [hvbc]
          · simp [List.mem_cons, hek]
        refine Prod.ext ?_ ?_
        · simp only []
          congr 1
          exact List.countP_congr fun e he => by rw [hpt e he]
        · simp only []
          congr 1
          exact List.filter_congr fun e he => by rw [hpt e he]
      have hget : redisGet true now t k = .ok (some e0.value) := by
        simp [redisGet, hf]
      by_cases hv : e0.value = ""
      · have hvbc : valueBeforeCut cut e0 = false := by simp [valueBeforeCut, hv]
        have hstep : cleanupStep true now cut (n, t) k = (n, t) := by
          simp [cleanupStep, hget, hv]
        rw [hstep]
        exact hskip hvbc
      · cases hfi : fromisoformat e0.value with
        | none =>
          have hvbc : valueBeforeCut cut e0 = false := by
            simp [valueBeforeCut, hv, hfi]
          have hstep : cleanupStep true now cut (n, t) k = (n, t) := by
            simp [cleanupStep, hget, hv, hfi]
          rw [hstep]
          exact hskip hvbc
        | some st =>
          cases hdl : dtLt st cut with
          | none =>
            have hvbc : valueBeforeCut cut e0 = false := by
              simp [valueBeforeCut, hv, hfi, hdl]
            have hstep : cleanupStep true now cut (n, t) k = (n, t) := by
              simp [cleanupStep, hget, hv, hfi, hdl]
            rw [hstep]
            exact hskip hvbc
          | some b =>
            cases b with
            | false =>
              have hvbc : valueBeforeCut cut e0 = false := by
                simp [valueBeforeCut, hv, hfi, hdl]
              have hstep : cleanupStep true now cut (n, t) k = (n, t) := by
                simp [cleanupStep, hget, hv, hfi, hdl]
              rw [hstep]
              exact hskip hvbc
            | true =>
              have hvbc : valueBeforeCut cut e0 = true := by
                simp [valueBeforeCut, hv, hfi, hdl]
              have hstep : cleanupStep true now cut (n, t) k =
                  (n + 1, ⟨t.entries.filter fun e => !(e.key == k)⟩) := by
                simp [cleanupStep, hget, hv, hfi, hdl, redisDel]
              rw [hstep]
              have hn2 : ((RedisState.mk (t.entries.filter fun e => !(e.key == k))).entries.map
                  RedisEntry.key).Nodup := by
                exact List.Nodup.sublist (List.Sublist.map _ (List.filter_sublist _)) hn
              rw [ih _ (n + 1) hn2]
              have hsub : ∀ e ∈ t.entries, e.key ≠ k →
                  (decide (e.key ∈ k :: ks) && (liveAt now e && valueBeforeCut cut e)) =
                  (decide (e.key ∈ ks) && (liveAt now e && valueBeforeCut cut e)) := by
                intro e _ hek
                simp [List.mem_cons, hek]
              refine Prod.ext ?_ ?_
              · simp only []
                -- count bookkeeping
                rw [List.countP_filter]
                rw [countP_split t.entries
                  (fun e => decide (e.key ∈ k :: ks) && (liveAt now e && valueBeforeCut cut e))
                  (fun e => e.key == k)]
                have h1 : t.entries.countP (fun e =>
                    (decide (e.key ∈ k :: ks) && (liveAt now e && valueBeforeCut cut e)) &&
                      (e.key == k)) = 1 := by
                  rw [← List.countP_filter]
                  have : t.entries.filter (fun e => e.key == k) = [e0] := by
                    rw [← he0k]
                    exact filter_key_singleton t.entries hn e0 he0
                  rw [this]
                  simp [List.countP_cons, he0k, he0l, hvbc]
                have h2 : t.entries.countP (fun e =>
                    (decide (e.key ∈ k :: ks) && (liveAt now e && valueBeforeCut cut e)) &&
                      !(e.key == k)) =
                    t.entries.countP (fun e =>
                    (decide (e.key ∈ ks) && (liveAt now e && valueBeforeCut cut e)) &&
                      !(e.key == k)) := by
                  refine List.countP_congr fun e he => ?_
                  by_cases hek : e.key = k
                  · simp [hek]
                  · rw [hsub e he hek]
                rw [h1, h2]
                omega
              · simp only []
                congr 1
                rw [List.filter_filter]
                refine (List.filter_congr fun e he => ?_).symm
                by_cases hek : e.key = k
                · have : e = e0 := hinj e he hek
                  subst this
                  simp [he0k, hvbc, he0l, List.mem_cons]
                · rw [hsub e he hek]
                  simp [hek]
    · push_neg at hf
      have hfn : t.entries.find? (fun e => e.key == k && liveAt now e) = none := by
        cases hx : t.entries.find? (fun e => e.key == k && liveAt now e) with
        | none => rfl
        | some e0 => exact absurd hx (hf e0)
      have hstep : cleanupStep true now cut (n, t) k = (n, t) := by
        simp [cleanupStep, redisGet, hfn]
      rw [hstep, ih t n hn]
      have hpt : ∀ e ∈ t.entries,
          (decide (e.key ∈ ks) && (liveAt now e && valueBeforeCut cut e)) =
          (decide (e.key ∈ k :: ks) && (liveAt now e && valueBeforeCut cut e)) := by
        intro e he
        by_cases hek : e.key = k
        · have hdead : liveAt now e = false := by
            have := List.find?_eq_none.mp hfn e he
            by_contra hx
            rw [Bool.not_eq_false] at hx
            exact this (by simp [hek, hx])
          simp [hdead]
        · simp [List.mem_cons, hek]
      refine Prod.ext ?_ ?_
      · simp only []
        congr 1
        exact List.countP_congr fun e he => by rw [hpt e he]
      · simp only []
        congr 1
        exact List.filter_congr fun e he => by rw [hpt e he]

theorem bool_aux (a b c : Bool) : ((a && b) && (b && c)) = ((a && b) && c) := by
  cases a <;> cases b <;> cases c <;> rfl

theorem countP_not_add {α : Type} (l : List α) (p : α → Bool) :
    l.countP p + (l.filter fun a => !p a).length = l.length := by
  induction l with
  | nil => rfl
  | cons a l ih => cases h : p a <;> simp [List.countP_cons, List.filter_cons, h] <;> omega

/-- Shared characterization: with an available backend, distinct keys in the
store, and an in-range cutoff computation, `cleanup_old_slots` returns `.ok`,
deletes exactly the entries selected by `sweptBy` (visible under the key
pattern, unexpired, stored value a non-empty timestamp before the cutoff),
and returns their number. -/
theorem cleanup_characterization (s : RedisState) (now : Int) (nowDt cut : DateTime)
    (d : Nat) (hn : (s.entries.map RedisEntry.key).Nodup)
    (hc : dtSubDays nowDt d = some cut) :
    cleanup_old_slots true now nowDt s d =
      .ok (s.entries.countP (sweptBy now cut),
        ⟨s.entries.filter fun e => !(sweptBy now cut e)⟩) := by
  have hk : redisKeysPfx true now s "notified_slot:" = .ok ((s.entries.filter fun e =>
      "notified_slot:".data.isPrefixOf e.key.data && liveAt now e).map fun e => e.key) := by
    simp [redisKeysPfx]
  unfold cleanup_old_slots
  rw [hk, hc]
  simp only []
  rw [cleanup_foldl_spec now cut _ s 0 hn]
  have hmem : ∀ e ∈ s.entries,
      decide (e.key ∈ ((s.entries.filter fun e =>
        "notified_slot:".data.isPrefixOf e.key.data && liveAt now e).map fun e => e.key)) =
      (isSlotKey e && liveAt now e) := by
    intro e he
    rcases hp : isSlotKey e && liveAt now e with _ | _
    · simp only [decide_eq_false_iff_not]
      intro hx
      rw [List.mem_map] at hx
      obtain ⟨e', he', hkeq⟩ := hx
      rw [List.mem_filter] at he'
      have : e' = e := List.inj_on_of_nodup_map hn he'.1 he hkeq
      subst this
      have := he'.2
      unfold isSlotKey at hp
      rw [hp] at this
      exact Bool.false_ne_true this
    · simp only [decide_eq_true_eq]
      rw [List.mem_map]
      refine ⟨e, ?_, rfl⟩
      rw [List.mem_filter]
      unfold isSlotKey at hp
      exact ⟨he, hp⟩
  have hpt : ∀ e ∈ s.entries,
      (decide (e.key ∈ ((s.entries.filter fun e =>
        "notified_slot:".data.isPrefixOf e.key.data && liveAt now e).map fun e => e.key)) &&
        (liveAt now e && valueBeforeCut cut e)) = sweptBy now cut e := by
    intro e he
    rw [hmem e he]
    unfold sweptBy
    exact bool_aux _ _ _
  refine congrArg Except.ok (Prod.ext ?_ ?_)
  · simp only [Nat.zero_add]
    exact List.countP_congr fun e he => by rw [hpt e he]
  · simp only []
    exact congrArg RedisState.mk (List.filter_congr fun e he => by rw [hpt e he])

/-! ## C5: what `cleanup_old_slots` actually removes -/

/-- Entry written by marking `("c", 2025-05-01T00:00)` at Redis time 1000:
its stored value is the slot's tee time, while `recordedAt` (ghost) is the
write instant. -/
def c5entry : RedisEntry :=
  ⟨"notified_slot:c:2025-05-01T00:00:002", "2025-05-01T00:00:00", 605800, 1000⟩

/-- Wall-clock datetime at which cleanup runs in the C5 scenario. -/
def c5nowDt : DateTime := ⟨2025, 6, 10, 0, 0, 0, 0, none⟩

/-- Cutoff `c5nowDt - 7 days`. -/
def c5cut : DateTime := ⟨2025, 6, 3, 0, 0, 0, 0, none⟩

/-- C5 counterexample: an entry written *just now* (age `0`, far below the
7-day threshold) is nevertheless deleted and counted by
`cleanup_old_slots`, because the code compares the stored slot tee time
(2025-05-01) with the cutoff instead of the entry's age. -/
theorem cleanup_ignores_entry_age_cex :
    mark_slot_notified true 1000 ⟨[]⟩ "c" ⟨2025, 5, 1, 0, 0, 0, 0, none⟩ 7 = .ok ⟨[c5entry]⟩ ∧
    (1000 : Int) - c5entry.recordedAt = 0 ∧
    cleanup_old_slots true 1000 c5nowDt ⟨[c5entry]⟩ 7 = .ok (1, ⟨[]⟩) := by
  refine ⟨rfl, rfl, rfl⟩

/-- C5 amended: `cleanup_old_slots(days_old)` removes exactly those visible
`notified_slot:*` entries whose *stored slot timestamp* (the value written at
mark time — the slot's tee time, not the recording time) is a non-empty
parseable string comparing strictly before `now - days_old`, and it returns
the number of entries removed. -/
theorem cleanup_sweeps_by_slot_time (s : RedisState) (now : Int) (nowDt cut : DateTime)
    (d : Nat) (hn : (s.entries.map RedisEntry.key).Nodup)
    (hc : dtSubDays nowDt d = some cut) :
    cleanup_old_slots true now nowDt s d =
      .ok (s.entries.countP (sweptBy now cut),
        ⟨s.entries.filter fun e => !(sweptBy now cut e)⟩) :=
  cleanup_characterization s now nowDt cut d hn hc

theorem cleanup_sweeps_by_slot_time_witness :
    cleanup_old_slots true 1000 c5nowDt ⟨[c5entry]⟩ 7 =
      .ok (List.countP (sweptBy 1000 c5cut) [c5entry],
        ⟨List.filter (fun e => !(sweptBy 1000 c5cut e)) [c5entry]⟩) :=
  cleanup_sweeps_by_slot_time ⟨[c5entry]⟩ 1000 c5nowDt c5cut 7 (by decide) (by decide)

/-! ## C10: cleanup is total over corrupt store contents -/

/-- C10: with the backend available and an in-range cutoff, `cleanup_old_slots`
always returns `.ok` (no exception escapes the per-key loop); every entry
whose stored value is missing/empty or unparseable is skipped — left in the
store and not counted — and the returned count equals the number of entries
deleted. -/
theorem cleanup_total_on_corrupt (s : RedisState) (now : Int) (nowDt cut : DateTime)
    (d : Nat) (hn : (s.entries.map RedisEntry.key).Nodup)
    (hc : dtSubDays nowDt d = some cut) :
    ∃ n s', cleanup_old_slots true now nowDt s d = .ok (n, s') ∧
      n + s'.entries.length = s.entries.length ∧
      ∀ e ∈ s.entries, (e.value = "" ∨ fromisoformat e.value = none) → e ∈ s'.entries := by
  refine ⟨_, _, cleanup_characterization s now nowDt cut d hn hc, ?_, ?_⟩
  · exact countP_not_add s.entries (sweptBy now cut)
  · intro e he hbad
    rw [List.mem_filter]
    refine ⟨he, ?_⟩
    have hvbc : valueBeforeCut cut e = false := by
      rcases hbad with hb | hb
      · simp [valueBeforeCut, hb]
      · simp [valueBeforeCut, hb]
    simp [sweptBy, hvbc]

/-- Concrete store for the C10 witness: one corrupt value, one empty value. -/
def c10s : RedisState :=
  ⟨[⟨"notified_slot:x", "garbage", 99999, 0⟩, ⟨"notified_slot:y", "", 99999, 0⟩]⟩

theorem cleanup_total_on_corrupt_witness :
    ∃ n s', cleanup_old_slots true 1000 c5nowDt c10s 7 = .ok (n, s') ∧
      n + s'.entries.length = c10s.entries.length ∧
      ∀ e ∈ c10s.entries, (e.value = "" ∨ fromisoformat e.value = none) → e ∈ s'.entries :=
  cleanup_total_on_corrupt c10s 1000 c5nowDt c5cut 7 (by decide) (by decide)

/-! ## C4: injectivity of the slot-key encoding -/

theorem digitCh_toNat (d : Nat) (h : d < 10) : (digitCh d).toNat = 48 + d := by
  interval_cases d <;> rfl

theorem digitCh_inj (a b : Nat) (ha : a < 10) (hb : b < 10)
    (h : digitCh a = digitCh b) : a = b := by
  have := congrArg Char.toNat h
  rw [digitCh_toNat a ha, digitCh_toNat b hb] at this
  omega

theorem digitCh_ne_colon (d : Nat) (h : d < 10) : digitCh d ≠ ':' := by
  intro hc
  have := congrArg Char.toNat hc
  rw [digitCh_toNat d h] at this
  have h58 : (':' : Char).toNat = 58 := rfl
  omega

theorem pad2_inj (a b : Nat) (ha : a < 100) (hb : b < 100) (h : pad2 a = pad2 b) : a = b := by
  unfold pad2 at h
  injection h with e1 h
  injection h with e2 _
  have d1 := digitCh_inj _ _ (by omega) (by omega) e1
  have d2 := digitCh_inj _ _ (by omega) (by omega) e2
  omega

theorem pad4_inj (a b : Nat) (ha : a < 10000) (hb : b < 10000) (h : pad4 a = pad4 b) : a = b := by
  unfold pad4 at h
  injection h with e1 h
  injection h with e2 h
  injection h with e3 h
  injection h with e4 _
  have d1 := digitCh_inj _ _ (by omega) (by omega) e1
  have d2 := digitCh_inj _ _ (by omega) (by omega) e2
  have d3 := digitCh_inj _ _ (by omega) (by omega) e3
  have d4 := digitCh_inj _ _ (by omega) (by omega) e4
  omega

theorem pad6_inj (a b : Nat) (ha : a < 1000000) (hb : b < 1000000)
    (h : pad6 a = pad6 b) : a = b := by
  unfold pad6 at h
  injection h with e1 h
  injection h with e2 h
  injection h with e3 h
  injection h with e4 h
  injection h with e5 h
  injection h with e6 _
  have d1 := digitCh_inj _ _ (by omega) (by omega) e1
  have d2 := digitCh_inj _ _ (by omega) (by omega) e2
  have d3 := digitCh_inj _ _ (by omega) (by omega) e3
  have d4 := digitCh_inj _ _ (by omega) (by omega) e4
  have d5 := digitCh_inj _ _ (by omega) (by omega) e5
  have d6 := digitCh_inj _ _ (by omega) (by omega) e6
  omega

/-- Date-and-hour block of an isoformat rendering: its first 13 characters. -/
def datePartChars (dt : DateTime) : List Char :=
  pad4 dt.year ++ '-' :: pad2 dt.month ++ '-' :: pad2 dt.day ++ 'T' :: pad2 dt.hour

theorem datePart_length (dt : DateTime) : (datePartChars dt).length = 13 := by
  simp [datePartChars, pad4, pad2]

theorem isoformat_decomp (dt : DateTime) :
    isoformatChars dt = datePartChars dt ++ ':' ::
      (pad2 dt.minute ++ ':' :: (pad2 dt.second ++
        (microChars dt.microsecond ++ tzChars dt.tzOffsetMin))) := by
  simp [isoformatChars, datePartChars, List.append_assoc]

theorem colon_notin_datePart (dt : DateTime) (h : dt.WF) : ':' ∉ datePartChars dt := by
  obtain ⟨h1, h2, h3, h4, h5, h6, h7, h8, h9, h10, h11, h12⟩ := h
  intro hmem
  have hlist : datePartChars dt =
      [digitCh (dt.year / 1000), digitCh (dt.year / 100 % 10), digitCh (dt.year / 10 % 10),
       digitCh (dt.year % 10), '-', digitCh (dt.month / 10), digitCh (dt.month % 10), '-',
       digitCh (dt.day / 10), digitCh (dt.day % 10), 'T',
       digitCh (dt.hour / 10), digitCh (dt.hour % 10)] := by
    simp [datePartChars, pad4, pad2]
  rw [hlist] at hmem
  have hday : dt.day ≤ 31 := by
    have : daysInMonth dt.year dt.month ≤ 31 := by
      unfold daysInMonth
      split <;> split <;> omega
    omega
  simp only [List.mem_cons, List.not_mem_nil, or_false] at hmem
  rcases hmem with h | h | h | h | h | h | h | h | h | h | h | h | h
  all_goals first
    | exact digitCh_ne_colon _ (by omega) h.symm
    | exact absurd h (by decide)

theorem isoformat_length (dt : DateTime) :
    (isoformatChars dt).length =
      19 + (if dt.microsecond = 0 then 0 else 7) +
        (if dt.tzOffsetMin = none then 0 else 6) := by
  rcases h : dt.tzOffsetMin with _ | o <;> by_cases hu : dt.microsecond = 0 <;>
    simp [isoformatChars, microChars, tzChars, pad4, pad2, pad6, hu, h]

theorem isoformat_length_ge (dt : DateTime) : 19 ≤ (isoformatChars dt).length := by
  rw [isoformat_length]
  split <;> split <;> omega

theorem isoformat_length_le (dt : DateTime) : (isoformatChars dt).length ≤ 32 := by
  rw [isoformat_length]
  split <;> split <;> omega

theorem iso_colon_suffix_short (dt : DateTime) (h : dt.WF) (p q : List Char)
    (he : isoformatChars dt = p ++ ':' :: q) : q.length ≤ 18 := by
  have h13 : 13 ≤ p.length := by
    by_contra hlt
    push_neg at hlt
    have htake : (isoformatChars dt).take 13 = datePartChars dt := by
      rw [isoformat_decomp]
      exact List.take_left' (datePart_length dt)
    have hcolon : ':' ∈ (isoformatChars dt).take 13 := by
      rw [he, List.take_append_eq_append_take, List.mem_append]
      right
      obtain ⟨m, hm⟩ : ∃ m, 13 - p.length = m + 1 := ⟨12 - p.length, by omega⟩
      rw [hm, List.take_succ_cons]
      exact List.mem_cons_self _ _
    rw [htake] at hcolon
    exact colon_notin_datePart dt h hcolon
  have hlen := congrArg List.length he
  rw [List.length_append, List.length_cons] at hlen
  have h32 := isoformat_length_le dt
  omega

theorem tzChars_inj (t1 t2 : Option Int)
    (hb1 : -1439 ≤ t1.getD 0 ∧ t1.getD 0 ≤ 1439)
    (hb2 : -1439 ≤ t2.getD 0 ∧ t2.getD 0 ≤ 1439)
    (h : tzChars t1 = tzChars t2) : t1 = t2 := by
  match t1, t2 with
  | none, none => rfl
  | none, some o => simp [tzChars] at h
  | some o, none => simp [tzChars] at h
  | some o1, some o2 =>
    simp only [Option.getD_some] at hb1 hb2
    unfold tzChars at h
    injection h with hs h
    obtain ⟨hp1, h⟩ := List.append_inj h (by simp [pad2])
    injection h with _ h
    have hdiv : o1.natAbs / 60 = o2.natAbs / 60 :=
      pad2_inj _ _ (by omega) (by omega) hp1
    have hmod : o1.natAbs % 60 = o2.natAbs % 60 :=
      pad2_inj _ _ (by omega) (by omega) h
    have habs : o1.natAbs = o2.natAbs := by omega
    by_cases hs1 : (0 : Int) ≤ o1 <;> by_cases hs2 : (0 : Int) ≤ o2
    · congr 1
      omega
    · rw [if_pos hs1, if_neg hs2] at hs
      exact absurd hs (by decide)
    · rw [if_neg hs1, if_pos hs2] at hs
      exact absurd hs (by decide)
    · congr 1
      omega

theorem isoformatChars_inj (a b : DateTime) (ha : a.WF) (hb : b.WF)
    (h : isoformatChars a = isoformatChars b) : a = b := by
  obtain ⟨a1, a2, a3, a4, a5, a6, a7, a8, a9, a10, a11, a12⟩ := ha
  obtain ⟨b1, b2, b3, b4, b5, b6, b7, b8, b9, b10, b11, b12⟩ := hb
  unfold isoformatChars at h
  simp only [List.append_assoc, List.cons_append] at h
  obtain ⟨hy, h⟩ := List.append_inj h (by simp [pad4])
  injection h with _ h
  obtain ⟨hmo, h⟩ := List.append_inj h (by simp [pad2])
  injection h with _ h
  obtain ⟨hd, h⟩ := List.append_inj h (by simp [pad2])
  injection h with _ h
  obtain ⟨hh, h⟩ := List.append_inj h (by simp [pad2])
  injection h with _ h
  obtain ⟨hmi, h⟩ := List.append_inj h (by simp [pad2])
  injection h with _ h
  obtain ⟨hs, h⟩ := List.append_inj h (by simp [pad2])
  have ey : a.year = b.year := pad4_inj _ _ (by omega) (by omega) hy
  have emo : a.month = b.month := pad2_inj _ _ (by omega) (by omega) hmo
  have eda : a.day = b.day := by
    have hda : a.day ≤ 31 := by
      have : daysInMonth a.year a.month ≤ 31 := by
        unfold daysInMonth; split <;> split <;> omega
      omega
    have hdb : b.day ≤ 31 := by
      have : daysInMonth b.year b.month ≤ 31 := by
        unfold daysInMonth; split <;> split <;> omega
      omega
    exact pad2_inj _ _ (by omega) (by omega) hd
  have eh : a.hour = b.hour := pad2_inj _ _ (by omega) (by omega) hh
  have emi : a.minute = b.minute := pad2_inj _ _ (by omega) (by omega) hmi
  have es : a.second = b.second := pad2_inj _ _ (by omega) (by omega) hs
  -- microseconds and offset
  have hus_tz : a.microsecond = b.microsecond ∧ a.tzOffsetMin = b.tzOffsetMin := by
    by_cases hu1 : a.microsecond = 0 <;> by_cases hu2 : b.microsecond = 0
    · rw [microChars, microChars, if_pos hu1, if_pos hu2] at h
      simp only [List.nil_append] at h
      exact ⟨hu1.trans hu2.symm, tzChars_inj _ _ ⟨a11, a12⟩ ⟨b11, b12⟩ h⟩
    · exfalso
      rw [microChars, microChars, if_pos hu1, if_neg hu2] at h
      simp only [List.nil_append, List.cons_append] at h
      rcases ht : a.tzOffsetMin with _ | o
      · rw [ht] at h
        simp [tzChars] at h
      · rw [ht] at h
        unfold tzChars at h
        injection h with hsign _
        by_cases ho : (0 : Int) ≤ o
        · rw [if_pos ho] at hsign; exact absurd hsign (by decide)
        · rw [if_neg ho] at hsign; exact absurd hsign (by decide)
    · exfalso
      rw [microChars, microChars, if_neg hu1, if_pos hu2] at h
      simp only [List.nil_append, List.cons_append] at h
      rcases ht : b.tzOffsetMin with _ | o
      · rw [ht] at h
        simp [tzChars] at h
      · rw [ht] at h
        unfold tzChars at h
        injection h with hsign _
        by_cases ho : (0 : Int) ≤ o
        · rw [if_pos ho] at hsign; exact absurd hsign (by decide)
        · rw [if_neg ho] at hsign; exact absurd hsign (by decide)
    · rw [microChars, microChars, if_neg hu1, if_neg hu2] at h
      simp only [List.cons_append] at h
      injection h with _ h
      obtain ⟨hus, h⟩ := List.append_inj h (by simp [pad6])
      refine ⟨pad6_inj _ _ (by omega) (by omega) hus,
        tzChars_inj _ _ ⟨a11, a12⟩ ⟨b11, b12⟩ h⟩
  obtain ⟨eus, etz⟩ := hus_tz
  cases a
  cases b
  simp_all

theorem key_mid_ne (c1 c2 : List Char) (t1 t2 : DateTime) (h1 : t1.WF)
    (hlt : c1.length < c2.length) :
    c1 ++ ':' :: (isoformatChars t1 ++ ['2']) ≠ c2 ++ ':' :: (isoformatChars t2 ++ ['2']) := by
  intro h
  have hdrop := congrArg (List.drop (c1.length + 1)) h
  have hL : List.drop (c1.length + 1) (c1 ++ ':' :: (isoformatChars t1 ++ ['2'])) =
      isoformatChars t1 ++ ['2'] := by
    have hre : c1 ++ ':' :: (isoformatChars t1 ++ ['2']) =
        (c1 ++ [':']) ++ (isoformatChars t1 ++ ['2']) := by simp
    rw [hre]
    exact List.drop_left' (by simp)
  have hR : List.drop (c1.length + 1) (c2 ++ ':' :: (isoformatChars t2 ++ ['2'])) =
      c2.drop (c1.length + 1) ++ ':' :: (isoformatChars t2 ++ ['2']) := by
    rw [List.drop_append_eq_append_drop]
    have hz : c1.length + 1 - c2.length = 0 := by omega
    rw [hz, List.drop_zero]
  rw [hL, hR] at hdrop
  have hre2 : c2.drop (c1.length + 1) ++ ':' :: (isoformatChars t2 ++ ['2']) =
      (c2.drop (c1.length + 1) ++ ':' :: isoformatChars t2) ++ ['2'] := by simp
  rw [hre2] at hdrop
  have hiso : isoformatChars t1 = c2.drop (c1.length + 1) ++ ':' :: isoformatChars t2 :=
    List.append_cancel_right hdrop
  have hshort := iso_colon_suffix_short t1 h1 _ _ hiso
  have := isoformat_length_ge t2
  omega

theorem generate_slot_key_inj (c1 c2 : String) (t1 t2 : DateTime)
    (h1 : t1.WF) (h2 : t2.WF)
    (h : generate_slot_key c1 t1 = generate_slot_key c2 t2) : c1 = c2 ∧ t1 = t2 := by
  have hd := congrArg String.data h
  simp only [generate_slot_key, String.data_append] at hd
  have hd2 : c1.data ++ ':' :: (isoformatChars t1 ++ ['2']) =
      c2.data ++ ':' :: (isoformatChars t2 ++ ['2']) := by
    simp only [List.append_assoc] at hd
    exact List.append_cancel_left hd
  rcases Nat.lt_trichotomy c1.data.length c2.data.length with hlt | heq | hgt
  · exact absurd hd2 (key_mid_ne _ _ _ _ h1 hlt)
  · obtain ⟨hc, hrest⟩ := List.append_inj hd2 heq
    injection hrest with _ hrest
    have hiso : isoformatChars t1 = isoformatChars t2 := List.append_cancel_right hrest
    exact ⟨String.ext hc, isoformatChars_inj t1 t2 h1 h2 hiso⟩
  · exact absurd hd2.symm (key_mid_ne _ _ _ _ h2 hgt)

/-- C4: for non-empty course identifiers and valid timestamps, the slot-key
encoding is well-defined and injective — two pairs generate the same key
exactly when course and slot time both coincide; consequently marking one
pair never changes what `is_slot_notified` reports for any other pair. -/
theorem slot_key_identity (c1 c2 : String) (t1 t2 : DateTime)
    (h1 : t1.WF) (h2 : t2.WF) (hc1 : c1 ≠ "") (hc2 : c2 ≠ "") :
    (generate_slot_key c1 t1 = generate_slot_key c2 t2 ↔ (c1 = c2 ∧ t1 = t2)) ∧
    (∀ (s s3 : RedisState) (now now2 : Int) (d : Nat),
      ¬(c1 = c2 ∧ t1 = t2) →
      mark_slot_notified true now s c1 t1 d = .ok s3 →
      is_slot_notified true now2 s3 c2 t2 = is_slot_notified true now2 s c2 t2) := by
  have hiff : generate_slot_key c1 t1 = generate_slot_key c2 t2 ↔ (c1 = c2 ∧ t1 = t2) := by
    constructor
    · exact generate_slot_key_inj c1 c2 t1 t2 h1 h2
    · rintro ⟨rfl, rfl⟩
      rfl
  refine ⟨hiff, ?_⟩
  intro s s3 now now2 d hne hm
  have hd : 0 < d := by
    by_contra hz
    have : d = 0 := by omega
    subst this
    simp [mark_slot_notified, redisSetex] at hm
  rw [mark_slot_notified_ok now s c1 t1 d hd] at hm
  have hs3 : s3 = setexState now s (generate_slot_key c1 t1) ((d : Int) * 24 * 60 * 60)
      (isoformat t1) := by
    exact (Except.ok.injEq _ _ ▸ hm.symm : _)
  subst hs3
  have hkne : generate_slot_key c2 t2 ≠ generate_slot_key c1 t1 := by
    intro hk
    have hp := generate_slot_key_inj c2 c1 t2 t1 h2 h1 hk
    exact hne ⟨hp.1.symm, hp.2.symm⟩
  rw [is_slot_notified_ok, is_slot_notified_ok, any_key_setexState, if_neg hkne]

theorem slot_key_identity_witness :
    generate_slot_key "courseA" sampleDt ≠ generate_slot_key "courseB" sampleDt := by
  intro h
  have hid := (slot_key_identity "courseA" "courseB" sampleDt sampleDt (by decide) (by decide)
    (by decide) (by decide)).1.mp h
  exact absurd hid.1 (by decide)

end TeeTimes
